import Mathlib

set_option maxRecDepth 8000

/-!
Verification of the self-reflection-tool repository.

Shallow embedding of the program's pure core:
* the GitHub client (search paging, rate-limit handling, PR enrichment),
* the PR localStorage cache validity check,
* the AI pipeline (cluster index resolution, question-id synthesis,
  tolerant JSON extraction, assessment persistence).

Effectful operations (HTTP requests, AI streaming, the Quick DB backend,
`Date.now()`) are modelled by passing their observable results explicitly:
a page server is a function from page number to the page payload, the
per-PR detail call is an oracle from item to outcome, the clock is an
explicit argument, and the database is an explicit store value.
-/

namespace SelfReflectionTool

/-! ## JavaScript string helpers -/

/-- Whitespace as matched by the JavaScript `\s` class and `String.trim`,
restricted to the characters that occur in this code base's data. -/
def isJsWs (c : Char) : Bool :=
  c = ' ' || c = '\n' || c = '\t' || c = '\r'

/-- Trim whitespace from both ends of a character list (JS `String.trim`). -/
def jsTrim (l : List Char) : List Char :=
  ((l.dropWhile isJsWs).reverse.dropWhile isJsWs).reverse

/-- Fuel-bounded digit accumulator for `decChars` (structural recursion
so that terms evaluate by kernel reduction). -/
def decCharsAux : Nat → Nat → List Char
  | 0, _ => []
  | fuel + 1, n =>
    if n < 10 then [Nat.digitChar n]
    else decCharsAux fuel (n / 10) ++ [Nat.digitChar (n % 10)]

/-- Decimal digit characters of a natural number, most significant first.
Models the JavaScript number-to-string conversion used by template
literals for non-negative integers. -/
def decChars (n : Nat) : List Char := decCharsAux (n + 1) n

/-- JavaScript decimal rendering of a natural number (template literal). -/
def natToString (n : Nat) : String := ⟨decChars n⟩

theorem decCharsAux_congr :
    ∀ fuel1 fuel2 n, n < fuel1 → n < fuel2 →
      decCharsAux fuel1 n = decCharsAux fuel2 n := by
  intro fuel1
  induction fuel1 with
  | zero =>
    intro fuel2 n h1 _
    omega
  | succ f1 ih =>
    intro fuel2 n h1 h2
    cases fuel2 with
    | zero => omega
    | succ f2 =>
      rw [decCharsAux, decCharsAux]
      by_cases hn : n < 10
      · rw [if_pos hn, if_pos hn]
      · rw [if_neg hn, if_neg hn]
        have hdiv : n / 10 < n := Nat.div_lt_self (by omega) (by omega)
        congr 1
        exact ih f2 (n / 10) (by omega) (by omega)

/-- The recursion equation of `decChars`. -/
theorem decChars_eq (n : Nat) :
    decChars n = if n < 10 then [Nat.digitChar n]
      else decChars (n / 10) ++ [Nat.digitChar (n % 10)] := by
  rw [decChars, decChars, decCharsAux]
  by_cases hn : n < 10
  · rw [if_pos hn, if_pos hn]
  · rw [if_neg hn, if_neg hn]
    have hdiv : n / 10 < n := Nat.div_lt_self (by omega) (by omega)
    congr 1
    exact decCharsAux_congr n (n / 10 + 1) (n / 10) (by omega) (by omega)

/-! ## GitHub client (src/unnamed/part_002) -/

/-- Page size used by the search loop (`PER_PAGE = 100`). -/
def PER_PAGE : Nat := 100

/-- A progress report passed to the `onProgress` callback by the paging
loop: `{ fetched: allItems.length, total: totalCount }`. -/
structure Progress where
  fetched : Nat
  total : Nat
deriving DecidableEq, Repr

/-- One page of the GitHub search response: its `total_count` field and
its `items` array. -/
structure SearchPage (Item : Type) where
  total_count : Nat
  items : List Item
deriving DecidableEq, Repr

/-- Result of the paging phase of `fetchMergedPRs`: the accumulated
items, the sequence of progress reports, and the number of page
requests issued. -/
structure FetchResult (Item : Type) where
  allItems : List Item
  trace : List Progress
  requests : Nat
deriving DecidableEq, Repr

/-- The `while (true)` paging loop of `fetchMergedPRs`, with the search
endpoint abstracted as `server : page ↦ response body`.  State mirrors
the source: current `page`, accumulated `allItems`, the `totalCount`
variable (overwritten only when `page === 1`), and the list of progress
reports made so far.  `fuel` bounds the iteration count; `none` means
the fuel ran out before the loop broke. -/
def fetchPagesLoop {Item : Type} (server : Nat → SearchPage Item) :
    Nat → Nat → List Item → Nat → List Progress → Option (FetchResult Item)
  | 0, _, _, _, _ => none
  | fuel + 1, page, allItems0, totalCount0, trace0 =>
    let data := server page
    let totalCount := if page = 1 then data.total_count else totalCount0
    let allItems := allItems0 ++ data.items
    let trace := trace0 ++ [⟨allItems.length, totalCount⟩]
    if allItems.length ≥ totalCount ∨ data.items.length < PER_PAGE then
      some ⟨allItems, trace, page⟩
    else
      fetchPagesLoop server fuel (page + 1) allItems totalCount trace

/-- The paging phase of `fetchMergedPRs`: start at page 1 with no items,
`totalCount = 0` and an empty progress trace. -/
def fetchSearchItems {Item : Type} (server : Nat → SearchPage Item) (fuel : Nat) :
    Option (FetchResult Item) :=
  fetchPagesLoop server fuel 1 [] 0 []

/-- Concatenation of the items of pages `1..q` served by `server`. -/
def itemsThrough {Item : Type} (server : Nat → SearchPage Item) : Nat → List Item
  | 0 => []
  | q + 1 => itemsThrough server q ++ (server (q + 1)).items

/-- The `pull_request` sub-object of a search hit. -/
structure PullRequestRef where
  url : Option String
  merged_at : Option String
deriving DecidableEq, Repr

/-- A raw GitHub search hit, restricted to the fields the code reads.
`Option` marks fields the code guards against being absent. -/
structure SearchItem where
  title : String
  html_url : String
  repository_url : Option String
  pull_request : Option PullRequestRef
  body : Option String
deriving DecidableEq, Repr

/-- Body of the per-PR detail endpoint, restricted to the fields read. -/
structure PRDetail where
  additions : Option Nat
  deletions : Option Nat
  merged_at : Option String
deriving DecidableEq, Repr

/-- Observable outcome of the per-item detail call made by `enrichPR`:
a parsed 2xx body, a non-2xx response, or a thrown network error. -/
inductive DetailOutcome where
  | success (detail : PRDetail)
  | httpError
  | networkError
deriving DecidableEq, Repr

/-- The enriched PR record assembled by `enrichPR`. -/
structure PullRequest where
  title : String
  url : String
  repo : String
  mergedAt : Option String
  body : String
  additions : Nat
  deletions : Nat
deriving DecidableEq, Repr

/-- Search, starting at each suffix position, for the leftmost occurrence
of `repos/` that is followed by at least one character and whose tail
contains no newline; return that tail.  This is the match of the
regular expression `/repos\/(.+)$/` (`.` does not match `'\n'`). -/
def reposTailMatch : List Char → Option (List Char)
  | [] => none
  | c :: rest =>
    if "repos/".data.isPrefixOf (c :: rest) &&
        decide ("repos/".data.length < (c :: rest).length) &&
        !((c :: rest).drop "repos/".data.length).contains '\n' then
      some ((c :: rest).drop "repos/".data.length)
    else
      reposTailMatch rest

/-- The helper `extractRepo`: capture of `/repos\/(.+)$/` on the repository API URL,
`"unknown"` when the URL is absent or the pattern does not match. -/
def extractRepo (repoApiUrl : Option String) : String :=
  match repoApiUrl with
  | none => "unknown"
  | some s =>
    match reposTailMatch s.data with
    | some tail => ⟨tail⟩
    | none => "unknown"

/-- The function `enrichPR`: build the PR record from the search hit, then overlay
additions/deletions/merge timestamp from the detail call when the hit
has a `pull_request.url` and the call succeeded.  Any failure of the
detail call leaves the zero counts and the search hit's timestamp. -/
def enrichPR (item : SearchItem) (outcome : DetailOutcome) : PullRequest :=
  let pr : PullRequest :=
    { title := item.title
      url := item.html_url
      repo := extractRepo item.repository_url
      mergedAt := item.pull_request.bind PullRequestRef.merged_at
      body := item.body.getD ""
      additions := 0
      deletions := 0 }
  match item.pull_request.bind PullRequestRef.url with
  | none => pr
  | some _ =>
    match outcome with
    | .success detail =>
      { pr with
        additions := detail.additions.getD 0
        deletions := detail.deletions.getD 0
        mergedAt := match detail.merged_at with
          | some m => some m
          | none => pr.mergedAt }
    | .httpError => pr
    | .networkError => pr

/-- Batch size of the enrichment loop (`batchSize = 5`). -/
def batchSize : Nat := 5

/-- The enrichment loop of `fetchMergedPRs`: process `allItems` in
slices of `batchSize`, appending each batch's results in order.  The
detail call is abstracted as `oracle`. -/
def enrichBatches (oracle : SearchItem → DetailOutcome) (items : List SearchItem) :
    List PullRequest :=
  if h : items = [] then []
  else
    (items.take batchSize).map (fun it => enrichPR it (oracle it)) ++
      enrichBatches oracle (items.drop batchSize)
  termination_by items.length
  decreasing_by
    have hpos : 0 < items.length := List.length_pos.mpr h
    simp only [List.length_drop, batchSize]
    omega

/-- A response as observed by `fetchWithRateLimit`: HTTP status and the
two rate-limit headers (`x-ratelimit-remaining`, `x-ratelimit-reset`,
the latter already run through `parseInt`). -/
structure RLResponse where
  status : Nat
  remaining : Option String
  resetAt : Option Nat
deriving DecidableEq, Repr

/-- Observable outcome of `fetchWithRateLimit`: a response handed back
to the caller together with the slept duration (if any), or the thrown
rate-limit error carrying the wait duration. -/
inductive RLOutcome where
  | response (r : RLResponse) (sleptMs : Option Int)
  | rateLimitError (waitMs waitSec : Int)
deriving DecidableEq, Repr

/-- The function `fetchWithRateLimit`: on a 403 whose `x-ratelimit-remaining` header
is exactly `"0"` and whose reset header is present, compute
`waitMs = resetAt*1000 - now + 1000`; sleep and retry exactly once when
`0 < waitMs < 120000`, otherwise throw.  Every other response is
returned unmodified.  The first and the retried fetch results are the
explicit arguments `first` and `retry`. -/
def fetchWithRateLimit (first retry : RLResponse) (now : Int) : RLOutcome :=
  if first.status = 403 then
    match first.remaining, first.resetAt with
    | some remaining, some resetAt =>
      if remaining = "0" then
        let waitMs : Int := resetAt * 1000 - now + 1000
        let waitSec : Int := -((-waitMs) / 1000)
        if 0 < waitMs ∧ waitMs < 120000 then
          .response retry (some waitMs)
        else
          .rateLimitError waitMs waitSec
      else .response first none
    | _, _ => .response first none
  else .response first none

/-- The function `fetchMergedPRs`: the paging phase followed by the enrichment phase. -/
def fetchMergedPRs (server : Nat → SearchPage SearchItem)
    (oracle : SearchItem → DetailOutcome) (fuel : Nat) : Option (List PullRequest) :=
  (fetchSearchItems server fuel).map fun r => enrichBatches oracle r.allItems

/-! ### Paging-loop characterization (claim C1 machinery) -/

theorem itemsThrough_pred_append {Item : Type} (server : Nat → SearchPage Item)
    (page : Nat) (hp : 1 ≤ page) :
    itemsThrough server (page - 1) ++ (server page).items = itemsThrough server page := by
  conv_rhs => rw [show page = (page - 1) + 1 by omega]
  rw [itemsThrough, show (page - 1) + 1 = page by omega]

theorem fetchPagesLoop_char {Item : Type} (server : Nat → SearchPage Item) (T : Nat) :
    ∀ (fuel page : Nat) (trace : List Progress) (r : FetchResult Item),
      2 ≤ page →
      fetchPagesLoop server fuel page (itemsThrough server (page - 1)) T trace = some r →
      page ≤ r.requests ∧
      r.allItems = itemsThrough server r.requests ∧
      r.trace = trace ++ (List.range' page (r.requests + 1 - page)).map
          (fun q => ⟨(itemsThrough server q).length, T⟩) ∧
      ((itemsThrough server r.requests).length ≥ T ∨
        (server r.requests).items.length < PER_PAGE) ∧
      (∀ q, page ≤ q → q < r.requests →
        (itemsThrough server q).length < T ∧ PER_PAGE ≤ (server q).items.length) := by
  intro fuel
  induction fuel with
  | zero =>
    intro page trace r _hp h
    simp [fetchPagesLoop] at h
  | succ fuel ih =>
    intro page trace r hp h
    have hpage1 : ¬ page = 1 := by omega
    simp only [fetchPagesLoop, if_neg hpage1] at h
    rw [itemsThrough_pred_append server page (by omega)] at h
    split at h
    case isTrue hcond =>
      injection h with h
      subst h
      refine ⟨Nat.le_refl page, rfl, ?_, hcond, ?_⟩
      · rw [show page + 1 - page = 1 by omega]
        simp [List.range']
      · intro q hq1 hq2
        simp at hq2
        omega
    case isFalse hcond =>
      rw [show itemsThrough server page = itemsThrough server ((page + 1) - 1) by simp] at h
      obtain ⟨h1, h2, h3, h4, h5⟩ := ih (page + 1)
          (trace ++ [⟨(itemsThrough server ((page + 1) - 1)).length, T⟩]) r (by omega) h
      rw [show (page + 1) - 1 = page by omega] at h3
      push_neg at hcond
      refine ⟨by omega, h2, ?_, h4, ?_⟩
      · rw [h3, show r.requests + 1 - (page + 1) = r.requests - page by omega,
          show r.requests + 1 - page = (r.requests - page) + 1 by omega,
          List.range'_succ, List.map_cons]
        simp
      · intro q hq1 hq2
        rcases Nat.eq_or_lt_of_le hq1 with hq | hq
        · subst hq
          exact ⟨by omega, by omega⟩
        · exact h5 q (by omega) hq2

/-- A fake search endpoint serving pages of sizes 100, 100, 50 whose
first page reports `total_count = 250`; later pages report different
totals, which the loop must never read. -/
def ex1Server : Nat → SearchPage Nat := fun page =>
  if page = 1 then ⟨250, List.range 100⟩
  else if page = 2 then ⟨999, (List.range 100).map (fun i => 100 + i)⟩
  else ⟨777, (List.range 50).map (fun i => 200 + i)⟩

/-- Claim C1: the paging loop of `fetchMergedPRs` reads the total result
count only from the first page and never revises it; it accumulates the
pages' items in order, reports progress `{fetched, total}` after each
page with the cumulative item count, and terminates exactly when the
accumulated count reaches the total or the most recent page was short
(fewer than `PER_PAGE` items): the stop condition holds at the last
requested page and at no earlier page. -/
theorem fetchMergedPRs_paging_spec {Item : Type} (server : Nat → SearchPage Item)
    (fuel : Nat) (r : FetchResult Item)
    (h : fetchSearchItems server fuel = some r) :
    1 ≤ r.requests ∧
    r.allItems = itemsThrough server r.requests ∧
    r.trace = (List.range' 1 r.requests).map
      (fun q => ⟨(itemsThrough server q).length, (server 1).total_count⟩) ∧
    (∀ e ∈ r.trace, e.total = (server 1).total_count) ∧
    ((itemsThrough server r.requests).length ≥ (server 1).total_count ∨
      (server r.requests).items.length < PER_PAGE) ∧
    (∀ q, 1 ≤ q → q < r.requests →
      (itemsThrough server q).length < (server 1).total_count ∧
      PER_PAGE ≤ (server q).items.length) := by
  have main : 1 ≤ r.requests ∧ r.allItems = itemsThrough server r.requests ∧
      r.trace = (List.range' 1 r.requests).map
        (fun q => ⟨(itemsThrough server q).length, (server 1).total_count⟩) ∧
      ((itemsThrough server r.requests).length ≥ (server 1).total_count ∨
        (server r.requests).items.length < PER_PAGE) ∧
      (∀ q, 1 ≤ q → q < r.requests →
        (itemsThrough server q).length < (server 1).total_count ∧
        PER_PAGE ≤ (server q).items.length) := by
    cases fuel with
    | zero => simp [fetchSearchItems, fetchPagesLoop] at h
    | succ fuel =>
      rw [fetchSearchItems] at h
      rw [show fetchPagesLoop server (fuel + 1) 1 [] 0 [] =
          (if (itemsThrough server 1).length ≥ (server 1).total_count ∨
              (server 1).items.length < PER_PAGE then
            some ⟨itemsThrough server 1,
              [⟨(itemsThrough server 1).length, (server 1).total_count⟩], 1⟩
          else fetchPagesLoop server fuel 2 (itemsThrough server 1) (server 1).total_count
              [⟨(itemsThrough server 1).length, (server 1).total_count⟩]) from by
        norm_num [fetchPagesLoop, itemsThrough]] at h
      split at h
      case isTrue hcond =>
        injection h with h
        subst h
        refine ⟨Nat.le_refl 1, rfl, ?_, hcond, ?_⟩
        · simp [List.range']
        · intro q hq1 hq2
          simp at hq2
          omega
      case isFalse hcond =>
        obtain ⟨h1, h2, h3, h4, h5⟩ := fetchPagesLoop_char server (server 1).total_count fuel 2
          [⟨(itemsThrough server 1).length, (server 1).total_count⟩] r (by omega) h
        push_neg at hcond
        refine ⟨by omega, h2, ?_, h4, ?_⟩
        · rw [h3, show r.requests + 1 - 2 = r.requests - 1 by omega,
            show List.range' 1 r.requests = 1 :: List.range' 2 (r.requests - 1) from by
              rw [show r.requests = (r.requests - 1) + 1 by omega]
              exact List.range'_succ 1 (r.requests - 1 + 1 - 1) 1]
          simp
        · intro q hq1 hq2
          rcases Nat.eq_or_lt_of_le hq1 with hq | hq
          · rw [← hq]
            exact ⟨by omega, by omega⟩
          · exact h5 q (by omega) hq2
  obtain ⟨p1, p2, p3, p4, p5⟩ := main
  refine ⟨p1, p2, p3, ?_, p4, p5⟩
  intro e he
  rw [p3] at he
  obtain ⟨q, _hq, rfl⟩ := List.mem_map.1 he
  rfl

/-- Witness for C1: on the 100/100/50 fake endpoint with
`total_count = 250`, the loop issues exactly 3 page requests, returns
exactly 250 items, and reports progress 100/250, 200/250, 250/250;
every reported total is the first page's `total_count`. -/
theorem fetchMergedPRs_paging_spec_witness :
    fetchSearchItems ex1Server 10 =
      some ⟨List.range 250, [⟨100, 250⟩, ⟨200, 250⟩, ⟨250, 250⟩], 3⟩ ∧
    (∀ e ∈ [(⟨100, 250⟩ : Progress), ⟨200, 250⟩, ⟨250, 250⟩],
      e.total = (ex1Server 1).total_count) := by
  have hrun : fetchSearchItems ex1Server 10 =
      some ⟨List.range 250, [⟨100, 250⟩, ⟨200, 250⟩, ⟨250, 250⟩], 3⟩ := by decide
  refine ⟨hrun, ?_⟩
  have h := fetchMergedPRs_paging_spec ex1Server 10 _ hrun
  simpa using h.2.2.2.1

/-- Claim C2: on a 403 response whose `x-ratelimit-remaining` header is
exactly `"0"` and whose reset header is present, `fetchWithRateLimit`
computes `waitMs = reset*1000 - now + 1000`; if `0 < waitMs < 120000` it
sleeps `waitMs` and returns the retried request's outcome unmodified
(exactly one retry), otherwise it throws a rate-limit error carrying the
wait duration without sleeping.  Any other response is returned to the
caller unmodified, with no sleep. -/
theorem fetchWithRateLimit_spec (first retry : RLResponse) (now : Int) :
    (first.status = 403 → first.remaining = some "0" →
      ∀ reset, first.resetAt = some reset →
      (0 < reset * 1000 - now + 1000 → reset * 1000 - now + 1000 < 120000 →
        fetchWithRateLimit first retry now =
          .response retry (some (reset * 1000 - now + 1000))) ∧
      (¬ (0 < reset * 1000 - now + 1000 ∧ reset * 1000 - now + 1000 < 120000) →
        fetchWithRateLimit first retry now =
          .rateLimitError (reset * 1000 - now + 1000)
            (-((-(reset * 1000 - now + 1000)) / 1000)))) ∧
    ((first.status ≠ 403 ∨ first.remaining ≠ some "0" ∨ first.resetAt = none) →
      fetchWithRateLimit first retry now = .response first none) := by
  constructor
  · intro h403 hrem reset hreset
    constructor
    · intro h1 h2
      simp [fetchWithRateLimit, h403, hrem, hreset, h1, h2]
    · intro hnot
      simp only [fetchWithRateLimit, h403, hrem, hreset, if_pos rfl]
      simp [hnot]
  · intro hother
    rcases hother with h | h | h
    · simp [fetchWithRateLimit, h]
    · by_cases h403 : first.status = 403
      · rcases hrem : first.remaining with _ | rem
        · rcases hres : first.resetAt with _ | reset <;>
            simp [fetchWithRateLimit, h403, hrem, hres]
        · rcases hres : first.resetAt with _ | reset
          · simp [fetchWithRateLimit, h403, hrem, hres]
          · have hne : ¬ rem = "0" := by
              intro e
              exact h (by rw [hrem, e])
            simp [fetchWithRateLimit, h403, hrem, hres, hne]
      · simp [fetchWithRateLimit, h403]
    · by_cases h403 : first.status = 403
      · rcases hrem : first.remaining with _ | rem <;>
          simp [fetchWithRateLimit, h403, hrem, h]
      · simp [fetchWithRateLimit, h403]

/-- Witness for C2: with `now = 1000000` ms, a 403 with `remaining="0"`
and reset 5 seconds in the future (`reset = 1005`) sleeps 6000 ms and
returns the retry's response; reset 200 seconds in the future
(`reset = 1200`) throws with wait 201000 ms (201 s) without sleeping;
a plain 200 response is returned unmodified. -/
theorem fetchWithRateLimit_spec_witness :
    fetchWithRateLimit ⟨403, some "0", some 1005⟩ ⟨200, none, none⟩ 1000000 =
      .response ⟨200, none, none⟩ (some 6000) ∧
    fetchWithRateLimit ⟨403, some "0", some 1200⟩ ⟨200, none, none⟩ 1000000 =
      .rateLimitError 201000 201 ∧
    fetchWithRateLimit ⟨200, some "5", some 1005⟩ ⟨500, none, none⟩ 1000000 =
      .response ⟨200, some "5", some 1005⟩ none := by
  refine ⟨?_, ?_, ?_⟩
  · have h := ((fetchWithRateLimit_spec ⟨403, some "0", some 1005⟩ ⟨200, none, none⟩
      1000000).1 rfl rfl 1005 rfl).1 (by decide) (by decide)
    exact h.trans (by decide)
  · have h := ((fetchWithRateLimit_spec ⟨403, some "0", some 1200⟩ ⟨200, none, none⟩
      1000000).1 rfl rfl 1200 rfl).2 (by decide)
    exact h.trans (by decide)
  · exact (fetchWithRateLimit_spec ⟨200, some "5", some 1005⟩ ⟨500, none, none⟩
      1000000).2 (Or.inl (by decide))

/-- The batched enrichment loop is the per-item enrichment map: batching
in slices of 5 preserves count and order. -/
theorem enrichBatches_eq_map (oracle : SearchItem → DetailOutcome) :
    ∀ items : List SearchItem,
      enrichBatches oracle items = items.map (fun it => enrichPR it (oracle it)) := by
  intro items
  generalize hn : items.length = n
  induction n using Nat.strong_induction_on generalizing items with
  | _ n ih =>
    rw [enrichBatches]
    split
    case isTrue h =>
      subst h
      simp
    case isFalse h =>
      have hlen : (items.drop batchSize).length < n := by
        subst hn
        have := List.length_pos.mpr h
        simp only [List.length_drop, batchSize]
        omega
      rw [ih ((items.drop batchSize).length) hlen (items.drop batchSize) rfl]
      rw [← List.map_append, List.take_append_drop]

/-- Claim C3: enrichment returns exactly one record per raw hit, in input
order (it equals the per-item map); a failed detail call (non-2xx or
network error) leaves `additions = 0`, `deletions = 0` and the merge
timestamp already known from the search hit, and never fails the batch
or the overall call (enrichment is total). -/
theorem enrich_spec (oracle : SearchItem → DetailOutcome) (items : List SearchItem) :
    enrichBatches oracle items = items.map (fun it => enrichPR it (oracle it)) ∧
    (enrichBatches oracle items).length = items.length ∧
    (∀ item outcome, outcome = .httpError ∨ outcome = .networkError →
      (enrichPR item outcome).additions = 0 ∧
      (enrichPR item outcome).deletions = 0 ∧
      (enrichPR item outcome).mergedAt = item.pull_request.bind PullRequestRef.merged_at ∧
      (enrichPR item outcome).title = item.title ∧
      (enrichPR item outcome).repo = extractRepo item.repository_url) := by
  refine ⟨enrichBatches_eq_map oracle items, ?_, ?_⟩
  · rw [enrichBatches_eq_map oracle items, List.length_map]
  · intro item outcome hfail
    rcases hfail with h | h <;> subst h <;>
      cases hurl : item.pull_request.bind PullRequestRef.url <;>
        simp [enrichPR, hurl]

/-- A concrete search hit used to instantiate the enrichment claims. -/
def exItem (j : Nat) : SearchItem :=
  { title := "t" ++ natToString j
    html_url := "https://github.com/acme/repo/pull/1"
    repository_url := some "https://api.github.com/repos/acme/repo"
    pull_request := some ⟨some "https://api.github.com/repos/acme/repo/pulls/1",
      some "2024-01-01T00:00:00Z"⟩
    body := some "body" }

/-- Seven concrete raw hits. -/
def exItems7 : List SearchItem :=
  [exItem 0, exItem 1, exItem 2, exItem 3, exItem 4, exItem 5, exItem 6]

/-- A detail oracle that fails for the third and fifth hit and succeeds
elsewhere. -/
def exOracle : SearchItem → DetailOutcome := fun it =>
  if it.title = "t2" || it.title = "t4" then .httpError
  else .success ⟨some 10, some 3, some "2024-02-02T00:00:00Z"⟩

/-- Witness for C3: on 7 raw hits where the third and fifth detail calls
fail, enrichment returns 7 records in input order, and a failed item
keeps zero counts and the search hit's merge timestamp. -/
theorem enrich_spec_witness :
    enrichBatches exOracle exItems7 =
      exItems7.map (fun it => enrichPR it (exOracle it)) ∧
    (enrichBatches exOracle exItems7).length = 7 ∧
    ((enrichPR (exItem 2) .httpError).additions = 0 ∧
      (enrichPR (exItem 2) .httpError).deletions = 0 ∧
      (enrichPR (exItem 2) .httpError).mergedAt =
        (exItem 2).pull_request.bind PullRequestRef.merged_at) := by
  obtain ⟨h1, h2, h3⟩ := enrich_spec exOracle exItems7
  have hf := h3 (exItem 2) .httpError (Or.inl rfl)
  exact ⟨h1, by rw [h2]; rfl, hf.1, hf.2.1, hf.2.2.1⟩

/-! ## PR data cache (src/unnamed/part_001, also duplicated in src/wizard.js) -/

/-- The cached snapshot's `dateRange` object (`{start, end}`). -/
structure DateRange where
  start : String
  endStr : String
deriving DecidableEq, Repr

/-- The localStorage snapshot `{prs, fetchedAt, dateRange}`. -/
structure CachedPRData where
  prs : List PullRequest
  fetchedAt : Int
  dateRange : DateRange
deriving DecidableEq, Repr

/-- Staleness bound in hours (`STALE_HOURS = 24`). -/
def STALE_HOURS : Nat := 24

/-- The function `getCachedPRData`: return the stored snapshot if it is younger than
`STALE_HOURS` and its date range equals the requested period by string
equality, else `null`.  The raw localStorage read and JSON parse are
abstracted: `stored = none` models a missing or unparsable entry. -/
def getCachedPRData (stored : Option CachedPRData) (now : Int)
    (periodStart periodEnd : String) : Option CachedPRData :=
  match stored with
  | none => none
  | some data =>
    let ageHours : ℚ := ((now - data.fetchedAt : Int) : ℚ) / (1000 * 60 * 60)
    if ageHours > (STALE_HOURS : ℚ) then none
    else if data.dateRange.start ≠ periodStart ∨ data.dateRange.endStr ≠ periodEnd then none
    else some data

/-- A concrete cached snapshot for the boundary cases of claim C6. -/
def exCache : CachedPRData := ⟨[], 0, ⟨"2024-01-01", "2024-06-30"⟩⟩

/-- Claim C6: a snapshot is returned iff `now - fetchedAt ≤ 24` hours
(in milliseconds) and the stored date range equals the requested period
by string equality.  Concretely: age 24h 1s is stale, age 23h with a
matching range is fresh, and a fresh snapshot with a mismatched start
date is stale. -/
theorem getCachedPRData_spec :
    (∀ (data : CachedPRData) (now : Int) (ps pe : String),
      getCachedPRData (some data) now ps pe = some data ↔
        (now - data.fetchedAt ≤ 86400000 ∧
          data.dateRange.start = ps ∧ data.dateRange.endStr = pe)) ∧
    getCachedPRData (some exCache) 86401000 "2024-01-01" "2024-06-30" = none ∧
    getCachedPRData (some exCache) 82800000 "2024-01-01" "2024-06-30" = some exCache ∧
    getCachedPRData (some exCache) 82800000 "2023-01-01" "2024-06-30" = none := by
  refine ⟨?_, by norm_num [getCachedPRData, exCache, STALE_HOURS],
    by norm_num [getCachedPRData, exCache, STALE_HOURS],
    by
      have hne : ¬ ("2024-01-01" : String) = "2023-01-01" := by decide
      norm_num [getCachedPRData, exCache, STALE_HOURS, hne]⟩
  intro data now ps pe
  have hage : (((now - data.fetchedAt : Int) : ℚ) / (1000 * 60 * 60) > (STALE_HOURS : ℚ)) ↔
      (86400000 < now - data.fetchedAt) := by
    rw [gt_iff_lt, lt_div_iff₀ (by norm_num : (0:ℚ) < 1000 * 60 * 60)]
    rw [show (STALE_HOURS : ℚ) * (1000 * 60 * 60) = ((86400000 : Int) : ℚ) by
      norm_num [STALE_HOURS]]
    exact Int.cast_lt
  simp only [getCachedPRData]
  by_cases h1 : 86400000 < now - data.fetchedAt
  · rw [if_pos (hage.mpr h1)]
    constructor
    · intro habs
      cases habs
    · rintro ⟨hd, _, _⟩
      omega
  · rw [if_neg (fun hc => h1 (hage.mp hc))]
    by_cases h2 : data.dateRange.start ≠ ps ∨ data.dateRange.endStr ≠ pe
    · rw [if_pos h2]
      constructor
      · intro habs
        cases habs
      · rintro ⟨_, he1, he2⟩
        rcases h2 with h2 | h2
        · exact absurd he1 h2
        · exact absurd he2 h2
    · rw [if_neg h2]
      push_neg at h2
      constructor
      · intro _
        exact ⟨by omega, h2.1, h2.2⟩
      · intro _
        rfl

/-! ## AI clustering (src/ai.js) -/

/-- One cluster object of the parsed clustering response.  `prIndices`
is `Option` because the code guards a missing field
(`cluster.prIndices || []`). -/
structure RawCluster where
  id : String
  name : String
  summary : String
  prIndices : Option (List Int)
deriving DecidableEq, Repr

/-- A resolved cluster: the raw cluster's fields with `prIndices`
replaced by the resolved PR objects. -/
structure Cluster where
  id : String
  name : String
  summary : String
  prs : List PullRequest
deriving DecidableEq, Repr

/-- JavaScript array indexing `prs[i]` for a (possibly negative or
out-of-range) numeric index: `undefined` becomes `none`. -/
def jsIndex (prs : List PullRequest) (i : Int) : Option PullRequest :=
  if 0 ≤ i then prs[i.toNat]? else none

/-- The index-resolution step of `clusterPRsIntoProjects`: each parsed
cluster keeps its fields and maps `prIndices` through `prs[i]`, dropping
unresolvable indices (`filter(Boolean)`).  The streaming request and
response parsing are abstracted: `clusters` is the parsed response. -/
def clusterPRsIntoProjects (prs : List PullRequest) (clusters : List RawCluster) :
    List Cluster :=
  if prs = [] then []
  else
    clusters.map fun cluster =>
      { id := cluster.id
        name := cluster.name
        summary := cluster.summary
        prs := (cluster.prIndices.getD []).filterMap (jsIndex prs) }

/-- A concrete PR used to instantiate the clustering claims. -/
def exPR (j : Nat) : PullRequest := ⟨"p" ++ natToString j, "u", "r", none, "", 0, 0⟩

/-- Five concrete input PRs. -/
def exPRs5 : List PullRequest := [exPR 0, exPR 1, exPR 2, exPR 3, exPR 4]

/-- The clustering response assigning indices `[[0,2],[1,3,4]]`. -/
def exTwoClusters : List RawCluster :=
  [⟨"c1", "n1", "s1", some [0, 2]⟩, ⟨"c2", "n2", "s2", some [1, 3, 4]⟩]

/-- Counterexample for C4: a cluster whose every index is out of range
resolves to an empty PR list but is NOT dropped — `clusterPRsIntoProjects`
returns it with `prs = []` instead of returning the empty cluster list. -/
theorem clusterPRs_empty_cluster_retained :
    clusterPRsIntoProjects exPRs5 [⟨"c1", "n", "s", some [99]⟩] ≠ [] ∧
    clusterPRsIntoProjects exPRs5 [⟨"c1", "n", "s", some [99]⟩] =
      [⟨"c1", "n", "s", []⟩] := by
  have h2 : clusterPRsIntoProjects exPRs5 [⟨"c1", "n", "s", some [99]⟩] =
      [⟨"c1", "n", "s", []⟩] := by decide
  refine ⟨?_, h2⟩
  rw [h2]
  simp

/-- Claim C4 (amended): index-resolution keeps one output cluster per
parsed cluster (a cluster whose resolved PR list is empty is retained
with `prs = []`, not dropped), maps every in-range index to the
corresponding input PR, and silently drops every out-of-range index
without raising. -/
theorem clusterPRsIntoProjects_resolution (prs : List PullRequest)
    (clusters : List RawCluster) (hne : prs ≠ []) :
    (clusterPRsIntoProjects prs clusters).length = clusters.length ∧
    List.Forall₂ (fun (c : RawCluster) (out : Cluster) =>
      out.id = c.id ∧ out.name = c.name ∧ out.summary = c.summary ∧
      out.prs = (c.prIndices.getD []).filterMap (jsIndex prs))
      clusters (clusterPRsIntoProjects prs clusters) ∧
    (∀ i : Int, 0 ≤ i → ∀ h2 : i.toNat < prs.length,
      jsIndex prs i = some (prs.get ⟨i.toNat, h2⟩)) ∧
    (∀ i : Int, i < 0 ∨ prs.length ≤ i.toNat → jsIndex prs i = none) := by
  rw [clusterPRsIntoProjects, if_neg hne]
  refine ⟨List.length_map .., ?_, ?_, ?_⟩
  · rw [List.forall₂_map_right_iff]
    rw [List.forall₂_same]
    intro rc _hrc
    exact ⟨rfl, rfl, rfl, rfl⟩
  · intro i h1 h2
    rw [jsIndex, if_pos h1, List.getElem?_eq_getElem h2]
    rfl
  · intro i hout
    rcases hout with hneg | hbig
    · rw [jsIndex, if_neg (by omega)]
    · by_cases h1 : 0 ≤ i
      · rw [jsIndex, if_pos h1, List.getElem?_eq_none hbig]
      · rw [jsIndex, if_neg h1]

/-- Witness for C4: resolving `[[0,2],[1,3,4]]` over 5 input PRs yields
exactly 2 clusters whose combined PR lists are a permutation of the
5 inputs with no duplicates. -/
theorem clusterPRsIntoProjects_resolution_witness :
    exPRs5 ≠ [] ∧
    (clusterPRsIntoProjects exPRs5 exTwoClusters).length = 2 ∧
    clusterPRsIntoProjects exPRs5 exTwoClusters =
      [⟨"c1", "n1", "s1", [exPR 0, exPR 2]⟩,
        ⟨"c2", "n2", "s2", [exPR 1, exPR 3, exPR 4]⟩] ∧
    ([exPR 0, exPR 2] ++ [exPR 1, exPR 3, exPR 4]).Perm exPRs5 ∧
    ([exPR 0, exPR 2] ++ [exPR 1, exPR 3, exPR 4]).Nodup := by
  have h := clusterPRsIntoProjects_resolution exPRs5 exTwoClusters (by decide)
  exact ⟨by decide, h.1.trans (by decide), by decide, by decide, by decide⟩

/-- Claim C10: every PR object appearing in any resolved cluster is an
element of the input PR list — index-resolution can only select existing
input records. -/
theorem clusterPRs_only_input_records (prs : List PullRequest)
    (clusters : List RawCluster) :
    ∀ c ∈ clusterPRsIntoProjects prs clusters, ∀ p ∈ c.prs, p ∈ prs := by
  intro c hc p hp
  rw [clusterPRsIntoProjects] at hc
  split at hc
  · simp at hc
  · obtain ⟨rc, _hrc, rfl⟩ := List.mem_map.1 hc
    obtain ⟨i, _hi, hsome⟩ := List.mem_filterMap.1 hp
    rw [jsIndex] at hsome
    split at hsome
    · exact List.getElem?_mem hsome
    · cases hsome

/-- Witness for C10 at the concrete clustering example. -/
theorem clusterPRs_only_input_records_witness : exPR 0 ∈ exPRs5 := by
  have h := clusterPRs_only_input_records exPRs5 exTwoClusters
  exact h ⟨"c1", "n1", "s1", [exPR 0, exPR 2]⟩ (by decide) (exPR 0) (by decide)

/-! ## Tolerant JSON extraction (`parseJSON` in src/ai.js)

`JSON.parse` is a JavaScript builtin; it is modelled here by a
recursive-descent parser over the JSON subset this code base exchanges
(null, booleans, integer numerals, strings without `\u` escapes, arrays,
objects). -/

/-- A parsed JSON value. -/
inductive Json where
  | null
  | bool (b : Bool)
  | num (n : Int)
  | str (s : String)
  | arr (elems : List Json)
  | obj (fields : List (String × Json))

/-- Skip JSON whitespace. -/
def skipWs (s : List Char) : List Char := s.dropWhile isJsWs

/-- Decode a single-character escape sequence. -/
def escChar (c : Char) : Option Char :=
  if c = '"' then some '"'
  else if c = '\\' then some '\\'
  else if c = '/' then some '/'
  else if c = 'n' then some '\n'
  else if c = 't' then some '\t'
  else if c = 'r' then some '\r'
  else none

/-- Parse the remainder of a quoted string (the opening quote already
consumed), returning its characters and the rest of the input. -/
def pStringChars : Nat → List Char → Option (List Char × List Char)
  | 0, _ => none
  | fuel + 1, s =>
    match s with
    | [] => none
    | '"' :: rest => some ([], rest)
    | '\\' :: c :: rest =>
      match escChar c with
      | some e => (pStringChars fuel rest).map (fun p => (e :: p.1, p.2))
      | none => none
    | c :: rest => (pStringChars fuel rest).map (fun p => (c :: p.1, p.2))

/-- Numeric value of a decimal digit character. -/
def digitVal (c : Char) : Option Nat :=
  if '0' ≤ c ∧ c ≤ '9' then some (c.toNat - '0'.toNat) else none

/-- Consume a maximal run of digits, accumulating their value. -/
def pDigits : Nat → List Char → Nat → Option (Nat × List Char)
  | 0, _, _ => none
  | fuel + 1, s, acc =>
    match s with
    | [] => some (acc, [])
    | c :: rest =>
      match digitVal c with
      | some d => pDigits fuel rest (acc * 10 + d)
      | none => some (acc, s)

/-- Parser positions: a value, the inside of an array just after `[`,
further array elements, the inside of an object just after the brace,
further object fields. -/
inductive PTag where
  | value
  | arrStart
  | arrItems
  | objStart
  | objItems

/-- The recursive-descent JSON parser, structural in its fuel. -/
def pRun : Nat → PTag → List Char → Option (Json × List Char)
  | 0, _, _ => none
  | fuel + 1, .value, s0 =>
    match skipWs s0 with
    | [] => none
    | c :: rest =>
      if c = 'n' then
        match rest with
        | 'u' :: 'l' :: 'l' :: r => some (.null, r)
        | _ => none
      else if c = 't' then
        match rest with
        | 'r' :: 'u' :: 'e' :: r => some (.bool true, r)
        | _ => none
      else if c = 'f' then
        match rest with
        | 'a' :: 'l' :: 's' :: 'e' :: r => some (.bool false, r)
        | _ => none
      else if c = '"' then
        (pStringChars fuel rest).map fun p => (.str ⟨p.1⟩, p.2)
      else if c = '[' then
        pRun fuel .arrStart (skipWs rest)
      else if c = '\x7b' then
        pRun fuel .objStart (skipWs rest)
      else if c = '-' then
        match rest with
        | d :: _ =>
          match digitVal d with
          | some _ =>
            match pDigits fuel rest 0 with
            | some (n, r) => some (.num (-(n : Int)), r)
            | none => none
          | none => none
        | [] => none
      else
        match digitVal c with
        | some _ =>
          match pDigits fuel (c :: rest) 0 with
          | some (n, r) => some (.num (n : Int), r)
          | none => none
        | none => none
  | fuel + 1, .arrStart, s =>
    match s with
    | ']' :: r => some (.arr [], r)
    | _ => pRun fuel .arrItems s
  | fuel + 1, .arrItems, s =>
    match pRun fuel .value s with
    | none => none
    | some (v, r1) =>
      match skipWs r1 with
      | ',' :: r2 =>
        match pRun fuel .arrItems (skipWs r2) with
        | some (.arr vs, r3) => some (.arr (v :: vs), r3)
        | _ => none
      | ']' :: r2 => some (.arr [v], r2)
      | _ => none
  | fuel + 1, .objStart, s =>
    match s with
    | '\x7d' :: r => some (.obj [], r)
    | _ => pRun fuel .objItems s
  | fuel + 1, .objItems, s =>
    match s with
    | '"' :: rest =>
      match pStringChars fuel rest with
      | none => none
      | some (key, r1) =>
        match skipWs r1 with
        | ':' :: r2 =>
          match pRun fuel .value r2 with
          | none => none
          | some (v, r3) =>
            match skipWs r3 with
            | ',' :: r4 =>
              match pRun fuel .objItems (skipWs r4) with
              | some (.obj fs, r5) => some (.obj ((⟨key⟩, v) :: fs), r5)
              | _ => none
            | '\x7d' :: r4 => some (.obj [(⟨key⟩, v)], r4)
            | _ => none
        | _ => none
    | _ => none

/-- The model of the `JSON.parse` builtin: parse one value and require
only whitespace after it. -/
def jsonParse (s : String) : Option Json :=
  match pRun (4 * s.length + 16) .value s.data with
  | some (v, rest) => if skipWs rest = [] then some v else none
  | none => none

/-- The cleaning phase of `parseJSON`: `text.trim()`, and when the
result starts with a backtick fence, the two replacements
stripping the leading fence line (with an optional `json` tag and
following whitespace) and the trailing whitespace-preceded fence. -/
def cleanInput (text : String) : String :=
  let cleaned := jsTrim text.data
  if "```".data.isPrefixOf cleaned then
    let afterTicks := cleaned.drop 3
    let afterTag := if "json".data.isPrefixOf afterTicks then afterTicks.drop 4 else afterTicks
    let afterL := afterTag.dropWhile isJsWs
    let rev := afterL.reverse
    let afterR := if "```".data.isPrefixOf rev then (rev.drop 3).dropWhile isJsWs else rev
    ⟨afterR.reverse⟩
  else ⟨cleaned⟩

/-- The function `parseJSON`: clean the generated text, structurally parse it, and on
any parse failure return the empty array (the failure is only logged). -/
def parseJSON (text : String) : Json :=
  match jsonParse (cleanInput text) with
  | some v => v
  | none => .arr []

/-- Counterexample for C5: a leading fence tagged `python` is NOT
stripped as a fence with a language hint would be — only the bare
backticks are removed, the tag itself survives, structural parsing
fails, and `parseJSON` returns the empty array instead of `[1,2,3]`. -/
theorem parseJSON_language_hint_cex :
    parseJSON "```python\n[1,2,3]\n```" = Json.arr [] ∧
    parseJSON "```python\n[1,2,3]\n```" ≠
      Json.arr [.num 1, .num 2, .num 3] := by
  have h : parseJSON "```python\n[1,2,3]\n```" = Json.arr [] := rfl
  refine ⟨h, ?_⟩
  rw [h]
  simp

/-- Claim C5 (amended): `parseJSON` strips a leading code fence
(optionally tagged `json` — other language tags are not recognized) and
a trailing fence before structural parsing, so parsing the fenced
`[1,2,3]` equals parsing the bare text and yields `[1,2,3]`; and on any
structural-parse failure it returns the empty array rather than
raising. -/
theorem parseJSON_spec :
    parseJSON "```json\n[1,2,3]\n```" = parseJSON "[1,2,3]" ∧
    parseJSON "[1,2,3]" = Json.arr [.num 1, .num 2, .num 3] ∧
    parseJSON "not json" = Json.arr [] ∧
    (∀ s, jsonParse (cleanInput s) = none → parseJSON s = Json.arr []) := by
  refine ⟨rfl, rfl, rfl, ?_⟩
  intro s h
  rw [parseJSON, h]

/-- Witness for C5: the fallback hypothesis discharged at the concrete
input `"not json"`. -/
theorem parseJSON_spec_witness :
    jsonParse (cleanInput "not json") = none ∧
    parseJSON "not json" = Json.arr [] := by
  have hn : jsonParse (cleanInput "not json") = none := rfl
  exact ⟨hn, parseJSON_spec.2.2.2 "not json" hn⟩

/-! ## Question generation (src/ai.js) -/

theorem digitChar_inj_fin :
    ∀ a b : Fin 10, Nat.digitChar a = Nat.digitChar b → a = b := by decide

theorem digitChar_inj (a b : Nat) (ha : a < 10) (hb : b < 10)
    (h : Nat.digitChar a = Nat.digitChar b) : a = b := by
  have := digitChar_inj_fin ⟨a, ha⟩ ⟨b, hb⟩ h
  simpa using congrArg Fin.val this

theorem decChars_ne_nil (n : Nat) : decChars n ≠ [] := by
  rw [decChars_eq]
  by_cases hn : n < 10
  · rw [if_pos hn]
    simp
  · rw [if_neg hn]
    intro habs
    have := congrArg List.length habs
    simp at this

theorem decChars_injective : ∀ m n, decChars m = decChars n → m = n := by
  intro m
  induction m using Nat.strong_induction_on with
  | _ m ih =>
    intro n h
    by_cases hm : m < 10 <;> by_cases hn : n < 10
    · rw [decChars_eq m, if_pos hm, decChars_eq n, if_pos hn] at h
      injection h with h1 _
      exact digitChar_inj m n hm hn h1
    · rw [decChars_eq m, if_pos hm, decChars_eq n, if_neg hn] at h
      exfalso
      have hlen := congrArg List.length h
      rw [List.length_append] at hlen
      simp only [List.length_singleton, List.length_cons, List.length_nil] at hlen
      have hpos := List.length_pos.mpr (decChars_ne_nil (n / 10))
      omega
    · rw [decChars_eq m, if_neg hm, decChars_eq n, if_pos hn] at h
      exfalso
      have hlen := congrArg List.length h
      rw [List.length_append] at hlen
      simp only [List.length_singleton, List.length_cons, List.length_nil] at hlen
      have hpos := List.length_pos.mpr (decChars_ne_nil (m / 10))
      omega
    · rw [decChars_eq m, if_neg hm, decChars_eq n, if_neg hn] at h
      have h' := congrArg List.reverse h
      simp only [List.reverse_append, List.reverse_cons, List.reverse_nil,
        List.nil_append, List.singleton_append, List.cons.injEq] at h'
      obtain ⟨h1, h2⟩ := h'
      have hmod : m % 10 = n % 10 :=
        digitChar_inj _ _ (Nat.mod_lt _ (by omega)) (Nat.mod_lt _ (by omega)) h1
      have hdiv : m / 10 = n / 10 :=
        ih (m / 10) (Nat.div_lt_self (by omega) (by omega)) (n / 10)
          (by simpa using h2)
      omega

theorem natToString_injective (m n : Nat) (h : natToString m = natToString n) :
    m = n := by
  apply decChars_injective
  simpa [natToString] using congrArg String.data h

/-- A question object of the parsed question-generation response; the
model may propose its own `id`, which the code discards. -/
structure RawQuestion where
  id : Option String
  text : String
  context : Option String
deriving DecidableEq, Repr

/-- A question record with synthesized id. -/
structure Question where
  id : String
  text : String
  context : String
deriving DecidableEq, Repr

/-- The result of `generateQuestionsForCluster`. -/
structure QuestionSet where
  clusterId : String
  questions : List Question
deriving DecidableEq, Repr

/-- A category reference in a handbook mapping. -/
structure CategoryRef where
  categoryId : String
  relevance : String
  evidence : String
deriving DecidableEq, Repr

/-- One entry of the impact-mapping stage's response. -/
structure Mapping where
  clusterId : String
  categories : List CategoryRef
deriving DecidableEq, Repr

/-- The function `generateQuestionsForCluster`: wrap the parsed questions, replacing
the `n`-th (0-based `i`) question's id by `cluster.id ++ "-q" ++ (i+1)`
and defaulting a missing context.  The mappings only shape the prompt,
and the streaming call is abstracted: `parsed` is the parsed response. -/
def generateQuestionsForCluster (cluster : Cluster) (_mappings : List CategoryRef)
    (parsed : List RawQuestion) : QuestionSet :=
  { clusterId := cluster.id
    questions := parsed.mapIdx fun i q =>
      { id := cluster.id ++ "-q" ++ natToString (i + 1)
        text := q.text
        context := q.context.getD "" } }

/-- Claim C9: the returned question set carries the cluster's id, one
question per parsed question, the `n`-th (1-based) id is exactly
`clusterId ++ "-q" ++ n` regardless of any model-proposed id, and the
ids are pairwise distinct. -/
theorem generateQuestions_ids (cluster : Cluster) (ms : List CategoryRef)
    (parsed : List RawQuestion) :
    (generateQuestionsForCluster cluster ms parsed).clusterId = cluster.id ∧
    (generateQuestionsForCluster cluster ms parsed).questions.length = parsed.length ∧
    (∀ n, ∀ h : n < (generateQuestionsForCluster cluster ms parsed).questions.length,
      ((generateQuestionsForCluster cluster ms parsed).questions.get ⟨n, h⟩).id =
        cluster.id ++ "-q" ++ natToString (n + 1)) ∧
    ((generateQuestionsForCluster cluster ms parsed).questions.map Question.id).Nodup := by
  have hinj : Function.Injective (fun n : Nat => cluster.id ++ "-q" ++ natToString (n + 1)) := by
    intro a b hab
    have hd := congrArg String.data hab
    simp only [String.data_append, List.append_assoc] at hd
    have hd2 := List.append_cancel_left hd
    have hd3 := List.append_cancel_left hd2
    have hdec : decChars (a + 1) = decChars (b + 1) := hd3
    have := decChars_injective _ _ hdec
    omega
  refine ⟨rfl, by simp [generateQuestionsForCluster], ?_, ?_⟩
  · intro n h
    simp [generateQuestionsForCluster]
  · have hids : (generateQuestionsForCluster cluster ms parsed).questions.map Question.id =
        (List.range parsed.length).map (fun n => cluster.id ++ "-q" ++ natToString (n + 1)) := by
      apply List.ext_getElem
      · simp [generateQuestionsForCluster]
      · intro i h1 h2
        simp [generateQuestionsForCluster]
    rw [hids]
    exact (List.nodup_range parsed.length).map hinj

/-- A concrete cluster for the question-id claims. -/
def exCluster : Cluster := ⟨"cluster-1", "n", "s", []⟩

/-- Two parsed questions, one with a model-proposed id and context,
one without. -/
def exRawQs : List RawQuestion :=
  [⟨some "model-id", "Q1", some "why"⟩, ⟨none, "Q2", none⟩]

/-- Witness for C9: two parsed questions under cluster `cluster-1`
receive ids `cluster-1-q1`, `cluster-1-q2`, which are distinct. -/
theorem generateQuestions_ids_witness :
    (generateQuestionsForCluster exCluster [] exRawQs).questions.length = 2 ∧
    ((generateQuestionsForCluster exCluster [] exRawQs).questions.get
      ⟨0, by decide⟩).id = "cluster-1-q1" ∧
    ((generateQuestionsForCluster exCluster [] exRawQs).questions.map Question.id).Nodup := by
  obtain ⟨_w1, w2, w3, w4⟩ := generateQuestions_ids exCluster [] exRawQs
  refine ⟨w2.trans rfl, ?_, w4⟩
  exact (w3 0 (by decide)).trans (by decide)

/-! ## Assessment persistence and pipeline (src/ai.js) -/

/-- The assembled assessment `{userEmail, clusters, mappings, questions,
narrative, generatedAt}`. -/
structure Assessment where
  userEmail : String
  clusters : List Cluster
  mappings : List Mapping
  questions : List QuestionSet
  narrative : Option String
  generatedAt : Int
deriving DecidableEq, Repr

/-- A document of the `assessments` collection: backend id plus body. -/
structure StoredDoc where
  docId : Nat
  doc : Assessment
deriving DecidableEq, Repr

/-- The `assessments` collection: its documents and the backend's next
free id. -/
structure Store where
  docs : List StoredDoc
  nextId : Nat
deriving DecidableEq, Repr

/-- The query `collection.where({userEmail}).find()`. -/
def whereUserEmail (s : Store) (e : String) : List StoredDoc :=
  s.docs.filter (fun d => decide (d.doc.userEmail = e))

/-- The call `collection.update(id, assessment)`: replace the body of the
document with that id, in place. -/
def updateDoc (s : Store) (i : Nat) (a : Assessment) : Store :=
  { s with docs := s.docs.map (fun d =>
      if d.docId = i then { docId := d.docId, doc := a } else d) }

/-- The call `collection.create(assessment)`: append under a fresh id. -/
def createDoc (s : Store) (a : Assessment) : Store :=
  { docs := s.docs ++ [⟨s.nextId, a⟩], nextId := s.nextId + 1 }

/-- The upsert body of `saveAssessment`: find the documents for
`assessment.userEmail`; update the first in place when found, else
create. -/
def upsertAssessment (s : Store) (a : Assessment) : Store :=
  match whereUserEmail s a.userEmail with
  | [] => createDoc s a
  | d :: _ => updateDoc s d.docId a

/-- The function `saveAssessment`: the upsert inside `try/catch` — a backend failure
is logged and swallowed, leaving the observable store unchanged and
raising nothing. -/
def saveAssessment (s : Store) (a : Assessment) (dbFailure : Bool) : Store :=
  if dbFailure then s else upsertAssessment s a

/-- A minimal assessment for a given user. -/
def mkAssessment (email : String) (gen : Int) : Assessment :=
  ⟨email, [], [], [], none, gen⟩

/-- A store already holding TWO documents for the same user email. -/
def exDupStore : Store := ⟨[⟨0, mkAssessment "u" 0⟩, ⟨1, mkAssessment "u" 1⟩], 2⟩

/-- Counterexample for C7: from a store state holding two documents for
`"u"`, calling upsert twice for `"u"` leaves two stored documents for
that key, not exactly one. -/
theorem upsert_duplicate_state_cex :
    (whereUserEmail (upsertAssessment (upsertAssessment exDupStore
      (mkAssessment "u" 2)) (mkAssessment "u" 3)) "u").length = 2 ∧
    (whereUserEmail (upsertAssessment (upsertAssessment exDupStore
      (mkAssessment "u" 2)) (mkAssessment "u" 3)) "u").length ≠ 1 := by
  refine ⟨by decide, ?_⟩
  intro habs
  rw [show (whereUserEmail (upsertAssessment (upsertAssessment exDupStore
    (mkAssessment "u" 2)) (mkAssessment "u" 3)) "u").length = 2 from by decide] at habs
  cases habs

theorem filter_update_none (i : Nat) (a : Assessment) (e : String) :
    ∀ docs : List StoredDoc,
      docs.filter (fun x => decide (x.doc.userEmail = e)) = [] →
      (∀ y ∈ docs, y.docId ≠ i) →
      (docs.map (fun x => if x.docId = i then { docId := x.docId, doc := a } else x)).filter
        (fun x => decide (x.doc.userEmail = e)) = [] := by
  intro docs hf hid
  have hmap : docs.map (fun x => if x.docId = i then
      ({ docId := x.docId, doc := a } : StoredDoc) else x) = docs := by
    have hcongr : ∀ x ∈ docs, (if x.docId = i then
        ({ docId := x.docId, doc := a } : StoredDoc) else x) = x := by
      intro x hx
      rw [if_neg (hid x hx)]
    rw [List.map_congr_left hcongr]
    simp
  rw [hmap, hf]

theorem filter_update_core (i : Nat) (a : Assessment) (e : String) (ha : a.userEmail = e) :
    ∀ (docs : List StoredDoc) (d : StoredDoc),
      (docs.map StoredDoc.docId).Nodup →
      d.docId = i →
      docs.filter (fun x => decide (x.doc.userEmail = e)) = [d] →
      (docs.map (fun x => if x.docId = i then { docId := x.docId, doc := a } else x)).filter
        (fun x => decide (x.doc.userEmail = e)) = [⟨i, a⟩] := by
  intro docs
  induction docs with
  | nil =>
    intro d _ _ hf
    simp at hf
  | cons x xs ih =>
    intro d hN hdi hf
    simp only [List.map_cons, List.nodup_cons] at hN
    obtain ⟨hxid, hNtl⟩ := hN
    by_cases hx : x.doc.userEmail = e
    · rw [List.filter_cons_of_pos (by simpa using hx)] at hf
      have hxd : x = d := by
        have := congrArg (fun l => l.headD x) hf
        simpa using this
      have hrest : xs.filter (fun y => decide (y.doc.userEmail = e)) = [] := by
        have := congrArg List.tail hf
        simpa using this
      subst hxd
      have hgx : (if x.docId = i then ({ docId := x.docId, doc := a } : StoredDoc) else x) =
          ⟨i, a⟩ := by
        rw [if_pos hdi, hdi]
      rw [List.map_cons, hgx, List.filter_cons_of_pos (by simpa using ha)]
      have hidfree : ∀ y ∈ xs, y.docId ≠ i := by
        intro y hy he2
        apply hxid
        rw [hdi, ← he2]
        exact List.mem_map_of_mem StoredDoc.docId hy
      rw [filter_update_none i a e xs hrest hidfree]
    · rw [List.filter_cons_of_neg (by simpa using hx)] at hf
      have hxi : x.docId ≠ i := by
        intro he2
        apply hxid
        have hd_mem : d ∈ xs.filter (fun y => decide (y.doc.userEmail = e)) := by
          rw [hf]
          exact List.mem_singleton_self d
        have : d ∈ xs := List.mem_of_mem_filter hd_mem
        rw [he2, ← hdi]
        exact List.mem_map_of_mem StoredDoc.docId this
      rw [List.map_cons, if_neg hxi, List.filter_cons_of_neg (by simpa using hx)]
      exact ih d hNtl hdi hf

/-- Ids are untouched by `updateDoc`. -/
theorem updateDoc_ids (s : Store) (i : Nat) (a : Assessment) :
    (updateDoc s i a).docs.map StoredDoc.docId = s.docs.map StoredDoc.docId := by
  rw [updateDoc]
  rw [List.map_map]
  apply List.map_congr_left
  intro x _
  by_cases hx : x.docId = i
  · simp [hx]
  · simp [hx]

/-- Claim C7 (amended): `saveAssessment`'s upsert replaces the first
found document in place when one exists for the key and inserts
otherwise; consequently, on any store whose backend ids are unique and
below the allocation counter and that holds at most one document for
the key — the state the store is actually in, since upsert preserves
it — two upserts for the same email leave exactly one document for that
key, whose content is the second call's assessment. -/
theorem upsertAssessment_spec (s : Store) (e : String) (a a' : Assessment)
    (ha : a.userEmail = e) (ha' : a'.userEmail = e)
    (hN : (s.docs.map StoredDoc.docId).Nodup)
    (hLt : ∀ d ∈ s.docs, d.docId < s.nextId)
    (hC : (whereUserEmail s e).length ≤ 1) :
    (whereUserEmail s a.userEmail = [] → upsertAssessment s a = createDoc s a) ∧
    (∀ d rest, whereUserEmail s a.userEmail = d :: rest →
      upsertAssessment s a = updateDoc s d.docId a) ∧
    ((whereUserEmail (upsertAssessment (upsertAssessment s a) a') e).map
      StoredDoc.doc = [a']) := by
  refine ⟨?_, ?_, ?_⟩
  · intro hf
    rw [upsertAssessment, hf]
  · intro d rest hf
    rw [upsertAssessment, hf]
  · rcases hf : whereUserEmail s e with _ | ⟨d, rest⟩
    · -- no document for the key: create, then update the created one
      have hstep1 : upsertAssessment s a = createDoc s a := by
        rw [upsertAssessment, ha, hf]
      have hw1 : whereUserEmail (createDoc s a) e = [⟨s.nextId, a⟩] := by
        rw [whereUserEmail, createDoc]
        rw [List.filter_append]
        have h1 : whereUserEmail s e = [] := hf
        rw [whereUserEmail] at h1
        rw [h1, List.filter_cons_of_pos (by simpa using ha), List.filter_nil]
        rfl
      have hstep2 : upsertAssessment (createDoc s a) a' =
          updateDoc (createDoc s a) s.nextId a' := by
        rw [upsertAssessment, ha', hw1]
      rw [hstep1, hstep2, whereUserEmail, updateDoc]
      have hcore := filter_update_core s.nextId a' e ha' (createDoc s a).docs
          ⟨s.nextId, a⟩ ?hfresh rfl ?hfound
      case hfresh =>
        rw [createDoc]
        rw [List.map_append]
        simp only [List.map_cons, List.map_nil]
        rw [List.nodup_append]
        refine ⟨hN, List.nodup_singleton _, ?_⟩
        intro x hx
        have hlt := hLt _ (List.exists_of_mem_map hx).choose_spec.1
        simp only [List.mem_singleton]
        intro he2
        obtain ⟨y, hy, hyx⟩ := List.exists_of_mem_map hx
        have := hLt y hy
        omega
      case hfound =>
        have := hw1
        rw [whereUserEmail] at this
        exact this
      rw [hcore]
      rfl
    · -- exactly one document for the key: update it twice
      have hrest : rest = [] := by
        rw [hf] at hC
        simp at hC
        exact hC
      subst hrest
      have hdid : d ∈ s.docs := by
        have : d ∈ whereUserEmail s e := by
          rw [hf]
          exact List.mem_singleton_self d
        exact List.mem_of_mem_filter this
      have hstep1 : upsertAssessment s a = updateDoc s d.docId a := by
        rw [upsertAssessment, ha, hf]
      have hcore1 := filter_update_core d.docId a e ha s.docs d hN rfl
        (by rw [whereUserEmail] at hf; exact hf)
      have hw1 : whereUserEmail (updateDoc s d.docId a) e = [⟨d.docId, a⟩] := by
        rw [whereUserEmail, updateDoc]
        exact hcore1
      have hstep2 : upsertAssessment (updateDoc s d.docId a) a' =
          updateDoc (updateDoc s d.docId a) d.docId a' := by
        rw [upsertAssessment, ha', hw1]
      have hN1 : ((updateDoc s d.docId a).docs.map StoredDoc.docId).Nodup := by
        rw [updateDoc_ids]
        exact hN
      have hcore2 := filter_update_core d.docId a' e ha'
        (updateDoc s d.docId a).docs ⟨d.docId, a⟩ hN1 rfl
        (by rw [whereUserEmail] at hw1; exact hw1)
      rw [hstep1, hstep2, whereUserEmail, updateDoc, hcore2]
      rfl

/-- Witness for C7: from the empty store, two upserts for `"u"` leave
exactly one document holding the second assessment. -/
theorem upsertAssessment_spec_witness :
    (whereUserEmail (upsertAssessment (upsertAssessment ⟨[], 0⟩
      (mkAssessment "u" 2)) (mkAssessment "u" 3)) "u").map StoredDoc.doc =
      [mkAssessment "u" 3] := by
  have h := upsertAssessment_spec ⟨[], 0⟩ "u" (mkAssessment "u" 2) (mkAssessment "u" 3)
    rfl rfl (by decide) (by simp) (by decide)
  exact h.2.2

/-- The function `runAnalysisPipeline`: cluster, map, generate questions per cluster,
assemble the assessment, persist (best effort), and return.  The three
generation calls are abstracted by their parsed responses, the clock by
`now`, and the persistence backend by `store`/`dbFailure`. -/
def runAnalysisPipeline (prs : List PullRequest) (userEmail : String) (now : Int)
    (clusterResponse : List RawCluster) (mappingsResponse : List Mapping)
    (questionsResponse : Cluster → List RawQuestion)
    (store : Store) (dbFailure : Bool) : Assessment × Store :=
  let clusters := clusterPRsIntoProjects prs clusterResponse
  let mappings := mappingsResponse
  let allQuestions := clusters.map fun cluster =>
    let clusterMappings :=
      ((mappings.find? (fun m => m.clusterId == cluster.id)).map Mapping.categories).getD []
    generateQuestionsForCluster cluster clusterMappings (questionsResponse cluster)
  let assessment : Assessment :=
    { userEmail := userEmail
      clusters := clusters
      mappings := mappings
      questions := allQuestions
      narrative := none
      generatedAt := now }
  (assessment, saveAssessment store assessment dbFailure)

/-- Claim C8: the pipeline assembles
`{userEmail, clusters, mappings, questions, narrative: null,
generatedAt: now}` and returns that assessment to the caller for EVERY
persistence outcome: the returned value is the same whether persistence
succeeds or fails, and a persistence failure is swallowed (the store is
simply left unchanged; nothing is raised — `saveAssessment` is total). -/
theorem runAnalysisPipeline_returns (prs : List PullRequest) (userEmail : String)
    (now : Int) (clusterResponse : List RawCluster) (mappingsResponse : List Mapping)
    (questionsResponse : Cluster → List RawQuestion) (store : Store) :
    (∀ dbFailure,
      (runAnalysisPipeline prs userEmail now clusterResponse mappingsResponse
        questionsResponse store dbFailure).1 =
      { userEmail := userEmail
        clusters := clusterPRsIntoProjects prs clusterResponse
        mappings := mappingsResponse
        questions := (clusterPRsIntoProjects prs clusterResponse).map fun cluster =>
          generateQuestionsForCluster cluster
            (((mappingsResponse.find? (fun m => m.clusterId == cluster.id)).map
              Mapping.categories).getD [])
            (questionsResponse cluster)
        narrative := none
        generatedAt := now }) ∧
    ((runAnalysisPipeline prs userEmail now clusterResponse mappingsResponse
        questionsResponse store true).1 =
      (runAnalysisPipeline prs userEmail now clusterResponse mappingsResponse
        questionsResponse store false).1) ∧
    (∀ a : Assessment, saveAssessment store a true = store) := by
  exact ⟨fun _ => rfl, rfl, fun _ => rfl⟩

end SelfReflectionTool
